import Mathlib

/-!
Verification development for the cv-check markdown-to-Typst transpiler core
(`src/render/pdf.rs`) and its style resolver (`src/themes/color.rs`).

Strings are modelled as `List Char`.  Each Rust `write!`/`writeln!` call on the
output buffer is modelled as appending one chunk (a `List Char`); the final
output string is the concatenation of the chunks, exactly as the `String`
accumulates in the source.  Numeric style values (`f32` fields of the theme)
are modelled by their `Display` rendering, since the transpiler core only ever
formats them into the output and performs no arithmetic on them.
-/

namespace CvCheck

/-- Abbreviation for the string model. -/
abbrev Str := List Char

/-- Character list of a string literal. -/
def chars (s : String) : Str := s.data

/-- Rust `char::is_whitespace`: the Unicode White_Space property, used by
`str::trim` and by `\s` in the `regex` crate. -/
def isRustWhitespace (c : Char) : Bool :=
  let n := c.toNat
  (0x09 ≤ n && n ≤ 0x0D) || n == 0x20 || n == 0x85 || n == 0xA0 ||
  n == 0x1680 || (0x2000 ≤ n && n ≤ 0x200A) || n == 0x2028 || n == 0x2029 ||
  n == 0x202F || n == 0x205F || n == 0x3000

/-- Rust `str::trim`: drop Unicode whitespace from both ends. -/
def rustTrim (s : Str) : Str :=
  ((s.dropWhile isRustWhitespace).reverse.dropWhile isRustWhitespace).reverse

/-- Rust `str::contains(pat)`: substring containment. -/
def containsSub (pat : Str) : Str → Bool
  | [] => pat.isEmpty
  | c :: rest => pat.isPrefixOf (c :: rest) || containsSub pat rest

/-- Rust `str::replace(t, [backslash, t])` for a single pattern character `t`
replaced by a two-character escape: one pass of the sequential `replace` calls
in `handle_text`. -/
def replChar (t : Char) (s : Str) : Str :=
  s.flatMap fun c => if c == t then ['\\', t] else [c]

/-- Combined per-character escape (used only to reason about `escapeTypst`). -/
def escChar (c : Char) : Str :=
  if c == '@' then ['\\', '@']
  else if c == '#' then ['\\', '#']
  else if c == '$' then ['\\', '$']
  else [c]

/-- The escape in `handle_text`:
`text.replace('@', "\\@").replace('#', "\\#").replace('$', "\\$")`. -/
def escapeTypst (s : Str) : Str :=
  replChar '$' (replChar '#' (replChar '@' s))

/-- Rust `str::replace` with a string pattern, fuel-indexed so that it is
structural (fuel `s.length + 1` always suffices: every step consumes at least
one character; the `pat.isEmpty` guard is dead code for the nonempty pattern
used below and only keeps the recursion total). -/
def replaceSubF (pat rep : Str) : Nat → Str → Str
  | 0, s => s
  | _ + 1, [] => []
  | fuel + 1, c :: cs =>
    if pat.isPrefixOf (c :: cs) && !pat.isEmpty then
      rep ++ replaceSubF pat rep fuel ((c :: cs).drop pat.length)
    else
      c :: replaceSubF pat rep fuel cs

/-- Rust `str::replace(pat, rep)`. -/
def replaceSub (pat rep s : Str) : Str :=
  replaceSubF pat rep (s.length + 1) s

/-- The sentinel inserted by `process_pagebreak_markers`. -/
def sentinel : Str := chars "TYPST_PAGEBREAK_MARKER"

/-- The raw-HTML page-break comment recognized in `render_markdown_as_typst`. -/
def pbComment : Str := chars "<!-- pagebreak -->"

/-- The chunk appended by `writeln!(output, "\n#pagebreak()\n")`. -/
def pbChunk : Str := chars "\n#pagebreak()\n\n"

/-- `PdfRenderer::process_pagebreak_markers`:
`content.replace("\\pagebreak", "TYPST_PAGEBREAK_MARKER")`. -/
def process_pagebreak_markers (content : Str) : Str :=
  replaceSub (chars "\\pagebreak") sentinel content

/-! ## Style resolver (`src/themes/color.rs`) -/

/-- `ColorTheme` from `src/themes/color.rs`.  The `f32` styling fields are
modelled by their `Display` strings (the transpiler only formats them). -/
structure ColorTheme where
  primary : Str
  secondary : Str
  accent : Str
  text : Str
  muted : Str
  background : Str
  surface : Str
  border : Str
  h1_color : Option Str
  h2_color : Option Str
  h3_color : Option Str
  separator_thickness : Option Str
  h1_spacing_above : Option Str
  h1_spacing_below : Option Str
  h2_spacing_above : Option Str
  h2_spacing_below : Option Str
  h3_spacing_above : Option Str
  h3_spacing_below : Option Str
  deriving DecidableEq

/-- `ColorTheme::classic`. -/
def ColorTheme.classic : ColorTheme where
  primary := chars "#2C3E50"
  secondary := chars "#34495E"
  accent := chars "#8B0000"
  text := chars "#2C2C2C"
  muted := chars "#7F7F7F"
  background := chars "#FAFAFA"
  surface := chars "#F0F0F0"
  border := chars "#D0D0D0"
  h1_color := none
  h2_color := none
  h3_color := none
  separator_thickness := none
  h1_spacing_above := none
  h1_spacing_below := none
  h2_spacing_above := none
  h2_spacing_below := none
  h3_spacing_above := none
  h3_spacing_below := none

/-- `ColorTheme::modern` (f32 literals rendered as by Rust `Display`:
`1.0` prints `1`, `2.5` prints `2.5`, and so on). -/
def ColorTheme.modern : ColorTheme where
  primary := chars "#0066CC"
  secondary := chars "#00A8A8"
  accent := chars "#FF6B35"
  text := chars "#333333"
  muted := chars "#666666"
  background := chars "#FFFFFF"
  surface := chars "#F3F4F6"
  border := chars "#E5E7EB"
  h1_color := none
  h2_color := some (chars "#607D8B")
  h3_color := some (chars "#424242")
  separator_thickness := some (chars "1")
  h1_spacing_above := some (chars "2.5")
  h1_spacing_below := some (chars "0.8")
  h2_spacing_above := some (chars "1.2")
  h2_spacing_below := some (chars "0.8")
  h3_spacing_above := some (chars "1")
  h3_spacing_below := some (chars "0.8")

/-- `ColorTheme::sharp`. -/
def ColorTheme.sharp : ColorTheme where
  primary := chars "#6B46C1"
  secondary := chars "#EC4899"
  accent := chars "#84CC16"
  text := chars "#1A1A1A"
  muted := chars "#6B7280"
  background := chars "#F8FAFC"
  surface := chars "#F1F5F9"
  border := chars "#E2E8F0"
  h1_color := none
  h2_color := none
  h3_color := none
  separator_thickness := none
  h1_spacing_above := none
  h1_spacing_below := none
  h2_spacing_above := none
  h2_spacing_below := none
  h3_spacing_above := none
  h3_spacing_below := none

/-- `ColorTheme::to_typst_rgb`. -/
def ColorTheme.to_typst_rgb (t : ColorTheme) (color_field : Str) : Str :=
  let hex :=
    if color_field == chars "primary" then t.primary
    else if color_field == chars "secondary" then t.secondary
    else if color_field == chars "accent" then t.accent
    else if color_field == chars "text" then t.text
    else if color_field == chars "muted" then t.muted
    else if color_field == chars "background" then t.background
    else if color_field == chars "surface" then t.surface
    else if color_field == chars "border" then t.border
    else chars "#000000"
  chars "rgb(\"" ++ hex ++ chars "\")"

/-- `ColorTheme::get_h1_color`: fall back to the body text color. -/
def ColorTheme.get_h1_color (t : ColorTheme) : Str :=
  match t.h1_color with
  | none => t.to_typst_rgb (chars "text")
  | some c => chars "rgb(\"" ++ c ++ chars "\")"

/-- `ColorTheme::get_h2_color`: fall back to the primary color. -/
def ColorTheme.get_h2_color (t : ColorTheme) : Str :=
  match t.h2_color with
  | none => t.to_typst_rgb (chars "primary")
  | some c => chars "rgb(\"" ++ c ++ chars "\")"

/-- `ColorTheme::get_h3_color`: fall back to the body text color. -/
def ColorTheme.get_h3_color (t : ColorTheme) : Str :=
  match t.h3_color with
  | none => t.to_typst_rgb (chars "text")
  | some c => chars "rgb(\"" ++ c ++ chars "\")"

/-- `ColorTheme::get_separator_thickness`: `unwrap_or(2.0)` (Display `2`). -/
def ColorTheme.get_separator_thickness (t : ColorTheme) : Str :=
  t.separator_thickness.getD (chars "2")

/-- `ColorTheme::get_h1_spacing_above`: `unwrap_or(1.5)`. -/
def ColorTheme.get_h1_spacing_above (t : ColorTheme) : Str :=
  t.h1_spacing_above.getD (chars "1.5")

/-- `ColorTheme::get_h1_spacing_below`: `unwrap_or(0.8)`. -/
def ColorTheme.get_h1_spacing_below (t : ColorTheme) : Str :=
  t.h1_spacing_below.getD (chars "0.8")

/-- `ColorTheme::get_h2_spacing_above`: `unwrap_or(1.2)`. -/
def ColorTheme.get_h2_spacing_above (t : ColorTheme) : Str :=
  t.h2_spacing_above.getD (chars "1.2")

/-- `ColorTheme::get_h2_spacing_below`: `unwrap_or(0.8)`. -/
def ColorTheme.get_h2_spacing_below (t : ColorTheme) : Str :=
  t.h2_spacing_below.getD (chars "0.8")

/-- `ColorTheme::get_h3_spacing_above`: `unwrap_or(0.8)`. -/
def ColorTheme.get_h3_spacing_above (t : ColorTheme) : Str :=
  t.h3_spacing_above.getD (chars "0.8")

/-- `ColorTheme::get_h3_spacing_below`: `unwrap_or(0.6)`. -/
def ColorTheme.get_h3_spacing_below (t : ColorTheme) : Str :=
  t.h3_spacing_below.getD (chars "0.6")

/-- `Theme` (only its `color` part is consulted by the transpiler core; the
font theme is used elsewhere). -/
structure Theme where
  color : ColorTheme
  deriving DecidableEq

/-- The modern theme, used as a concrete instance in witnesses. -/
def modernTheme : Theme := ⟨ColorTheme.modern⟩

/-- The classic theme. -/
def classicTheme : Theme := ⟨ColorTheme.classic⟩

/-! ## Event model (`pulldown_cmark` events, as consumed by the transpiler) -/

/-- `pulldown_cmark::HeadingLevel`. -/
inductive HeadingLevel where
  | h1 | h2 | h3 | h4 | h5 | h6
  deriving DecidableEq

/-- Start tags consumed by `handle_start_tag`.  Payloads the code ignores
(heading id and classes, list start number, code block language) are omitted;
all tag kinds falling into the wildcard arm are collapsed into `otherTag`. -/
inductive Tag where
  | heading (level : HeadingLevel)
  | paragraph
  | list
  | item
  | strong
  | emphasis
  | strikethrough
  | link (dest_url : Str)
  | codeBlock
  | blockQuote
  | otherTag
  deriving DecidableEq

/-- End tags consumed by `handle_end_tag` (`TagEnd::Heading(_)` carries a
level the code ignores). -/
inductive TagEnd where
  | heading (level : HeadingLevel)
  | paragraph
  | list
  | item
  | strong
  | emphasis
  | strikethrough
  | link
  | codeBlock
  | blockQuote
  | otherEnd
  deriving DecidableEq

/-- `pulldown_cmark::Event`, as matched in `render_markdown_as_typst`
(`Event::End` is named `endTag` because `end` is a Lean keyword; event kinds
falling into the wildcard arm are collapsed into `other`). -/
inductive Event where
  | start (tag : Tag)
  | endTag (tag : TagEnd)
  | text (s : Str)
  | code (s : Str)
  | softBreak
  | hardBreak
  | html (s : Str)
  | other
  deriving DecidableEq

/-- `RenderContext` from `src/render/pdf.rs`. -/
structure RenderContext where
  list_depth : Nat
  in_heading : Bool
  heading_level : HeadingLevel
  deriving DecidableEq

/-- `RenderContext::new`. -/
def RenderContext.new : RenderContext :=
  { list_depth := 0, in_heading := false, heading_level := .h1 }

/-! ## Event transpiler (`render_markdown_as_typst` and its helpers)

Each function returns the list of chunks it appends plus the updated context.
The `usize` subtractions `list_depth -= 1` and `list_depth - 1` underflow when
`list_depth == 0` (a panic in debug builds; for `Item` the wrapped value then
feeds a capacity-overflow panic in `"  ".repeat(..)` even in release builds),
so those paths are modelled as `none`. -/

/-- The two-tone level-2 heading text run emitted by `handle_text` when the
escaped text contains a parenthesis: bold company name, regular location. -/
def h2TwoToneChunk (theme : Theme) (company location : Str) : Str :=
  chars "  #text(size: 14pt, weight: \"bold\", fill: " ++
    theme.color.get_h2_color ++ chars ")[" ++ company ++
    chars "] #text(size: 14pt, weight: \"regular\", fill: " ++
    theme.color.get_h2_color ++ chars ")[" ++ location ++ chars "]"

/-- The single-run bold level-2 heading text emitted by `handle_text` when the
escaped text contains no parenthesis. -/
def h2BoldChunk (theme : Theme) (escaped : Str) : Str :=
  chars "  #text(size: 14pt, weight: \"bold\", fill: " ++
    theme.color.get_h2_color ++ chars ")[" ++ escaped ++ chars "]"

/-- `PdfRenderer::handle_text`. -/
def handle_text (text : Str) (context : RenderContext) (theme : Theme) :
    List Str :=
  if rustTrim text == sentinel then
    [pbChunk]
  else
    let escaped := escapeTypst text
    if context.in_heading && context.heading_level == .h2 then
      if escaped.any (· == '(') then
        let company := rustTrim (escaped.takeWhile (· ≠ '('))
        let location := escaped.dropWhile (· ≠ '(')
        [h2TwoToneChunk theme company location]
      else
        [h2BoldChunk theme escaped]
    else
      [escaped]

/-- `PdfRenderer::handle_start_tag`. -/
def handle_start_tag (tag : Tag) (context : RenderContext) (theme : Theme) :
    Option (List Str × RenderContext) :=
  match tag with
  | .heading level =>
    let ctx := { context with in_heading := true, heading_level := level }
    match level with
    | .h1 =>
      some ([chars "\n#v(" ++ theme.color.get_h1_spacing_above ++ chars "em)\n",
             chars "#block(\n",
             chars "  above: 0em,\n",
             chars "  below: " ++ theme.color.get_h1_spacing_below ++ chars "em,\n",
             chars "  breakable: false,\n",
             chars "  height: auto\n",
             chars ")[\n",
             chars "  #text(size: 16pt, weight: \"bold\", fill: " ++
               theme.color.get_h1_color ++ chars ")["], ctx)
    | .h2 =>
      some ([chars "\n#v(" ++ theme.color.get_h2_spacing_above ++ chars "em)\n",
             chars "#block(above: 0em, below: " ++
               theme.color.get_h2_spacing_below ++ chars "em)[\n"],
            { ctx with in_heading := true })
    | .h3 =>
      some ([chars "\n#v(" ++ theme.color.get_h3_spacing_above ++ chars "em)\n",
             chars "#block(above: 0em, below: " ++
               theme.color.get_h3_spacing_below ++ chars "em)[\n",
             chars "  #text(size: 12pt, weight: \"semibold\", fill: " ++
               theme.color.get_h3_color ++ chars ")["], ctx)
    | _ =>
      some ([chars "\n#v(0.5em)\n",
             chars "#block(above: 0em, below: 0.2em)[\n",
             chars "  #text(size: 11pt, weight: \"medium\")["], ctx)
  | .paragraph =>
    some ((if context.list_depth == 0 then [chars "\n"] else []), context)
  | .list =>
    let d := context.list_depth + 1
    some ((if d == 1 then [chars "\n"] else []),
          { context with list_depth := d })
  | .item =>
    if context.list_depth == 0 then
      none
    else
      some ([chars "\n" ++
               List.flatten (List.replicate (context.list_depth - 1) (chars "  ")) ++
               chars "• "], context)
  | .strong => some ([chars "*"], context)
  | .emphasis => some ([chars "*"], context)
  | .strikethrough => some ([chars "#strike["], context)
  | .link dest_url =>
    some ([chars "#link(\"" ++ dest_url ++ chars "\")["], context)
  | .codeBlock => some ([chars "\n```\n"], context)
  | .blockQuote => some ([chars "\n#quote["], context)
  | .otherTag => some ([], context)

/-- The separator line chunk emitted for a level-1 heading end:
`writeln!(output, "\n  #line(length: 100%, stroke: {}pt + {})", thickness,
accent)`. -/
def h1SeparatorChunk (theme : Theme) : Str :=
  chars "\n  #line(length: 100%, stroke: " ++
    theme.color.get_separator_thickness ++ chars "pt + " ++
    theme.color.to_typst_rgb (chars "accent") ++ chars ")\n"

/-- `PdfRenderer::handle_end_tag`. -/
def handle_end_tag (tag : TagEnd) (theme : Theme) (context : RenderContext) :
    Option (List Str × RenderContext) :=
  match tag with
  | .heading _ =>
    if context.in_heading then
      some ((if context.heading_level == .h2 then [] else [chars "]"]) ++
            (if context.heading_level == .h1 then [h1SeparatorChunk theme] else []) ++
            [chars "]\n"] ++
            (if context.heading_level == .h1 then [chars "#v(0.2em)\n"] else []),
            { context with in_heading := false })
    else
      some ([], context)
  | .paragraph =>
    some ((if context.list_depth == 0 then [chars "\n"] else []), context)
  | .list =>
    if context.list_depth == 0 then
      none
    else
      let d := context.list_depth - 1
      some ((if d == 0 then [chars "\n"] else []),
            { context with list_depth := d })
  | .strong => some ([chars "*"], context)
  | .emphasis => some ([chars "*"], context)
  | .strikethrough => some ([chars "]"], context)
  | .link => some ([chars "]"], context)
  | .blockQuote => some ([chars "]"], context)
  | .codeBlock => some ([chars "```\n"], context)
  | .item => some ([chars "\n"], context)
  | .otherEnd => some ([], context)

/-- One iteration of the event loop in `render_markdown_as_typst`. -/
def step (theme : Theme) (ctx : RenderContext) (e : Event) :
    Option (List Str × RenderContext) :=
  match e with
  | .start tag => handle_start_tag tag ctx theme
  | .endTag tag => handle_end_tag tag theme ctx
  | .text s => some (handle_text s ctx theme, ctx)
  | .code s => some ([chars "`" ++ s ++ chars "`"], ctx)
  | .softBreak => some ([chars " "], ctx)
  | .hardBreak => some ([chars "\n"], ctx)
  | .html s =>
    some ((if rustTrim s == pbComment then [pbChunk] else []), ctx)
  | .other => some ([], ctx)

/-- The event loop of `render_markdown_as_typst`, threading the context. -/
def transpileGo (theme : Theme) :
    RenderContext → List Event → Option (List Str × RenderContext)
  | ctx, [] => some ([], ctx)
  | ctx, e :: es =>
    match step theme ctx e with
    | none => none
    | some (cs, ctx') =>
      match transpileGo theme ctx' es with
      | none => none
      | some (cs', ctx'') => some (cs ++ cs', ctx'')

/-- The transpile pass over an event sequence, from a fresh `RenderContext`. -/
def transpile (theme : Theme) (events : List Event) :
    Option (List Str × RenderContext) :=
  transpileGo theme RenderContext.new events

/-- Predicate: the event is a recognized page-break request (sentinel channel
or raw-HTML comment channel). -/
def isPagebreakRequest : Event → Bool
  | .text s => rustTrim s == sentinel
  | .html s => rustTrim s == pbComment
  | _ => false

/-- Total number of recognized page-break requests in an event sequence. -/
def countRequests (events : List Event) : Nat :=
  events.countP isPagebreakRequest

/-- Precondition under which the transpile pass cannot hit the `usize`
underflows: every `Item` start and `List` end occurs at positive list depth. -/
def depthOk : Nat → List Event → Bool
  | _, [] => true
  | d, .start .list :: es => depthOk (d + 1) es
  | d, .start .item :: es => (d != 0) && depthOk d es
  | d, .endTag .list :: es => (d != 0) && depthOk (d - 1) es
  | d, _ :: es => depthOk d es

/-! ## Section grouper (`wrap_h2_sections`)

The scan is modelled as emitting a list of `Piece`s: every `push_str` of a
keep-together marker becomes a tagged marker piece, and every copied input
line becomes a `line` piece (rendering as the line plus the `'\n'` the source
pushes after it).  Rendering the pieces in order reproduces the `result`
string built by the source. -/

/-- One emission of the `wrap_h2_sections` scan. -/
inductive Piece where
  | line (s : Str)
  | openMark (s : Str)
  | closeMark (s : Str)
  deriving DecidableEq

/-- Open marker for a fresh keep-together block. -/
def openBlockStr : Str :=
  chars "#block(breakable: false, height: auto)[\n  // Start of job entry\n"

/-- Close marker emitted between sections or before an H1. -/
def closeMidStr : Str := chars "]  // End of job entry block\n\n"

/-- Close marker emitted just before a page-break line. -/
def closePBStr : Str := chars "]  // End of job entry block before pagebreak\n\n"

/-- Open marker re-opening a block just after a page-break line. -/
def reopenStr : Str :=
  chars "\n#block(breakable: false)[\n  // Continue job entry after pagebreak\n"

/-- Close marker for a block still open at end of input. -/
def closeEndStr : Str := chars "]  // End of job entry block\n"

/-- Lookahead pattern confirming a level-2 heading (`text(size: 14pt, ...`). -/
def h2TextPat : Str := chars "text(size: 14pt, weight: \"bold\""

/-- Lookahead pattern confirming a level-1 heading (`text(size: 16pt, ...`). -/
def h1TextPat : Str := chars "text(size: 16pt, weight: \"bold\""

/-- The `while i < lines.len()` loop of `wrap_h2_sections`.  Every iteration
advances `i` by exactly one, so running it with fuel `lines.length - i`
performs precisely the source's iterations; at fuel 0 the trailing
`if in_h2_section` close is emitted. -/
def wrapGo (lines : List Str) : Nat → Nat → Bool → List Piece
  | 0, _, inH2 => if inH2 then [.closeMark closeEndStr] else []
  | fuel + 1, i, inH2 =>
    let line := lines.getD i []
    if inH2 && containsSub (chars "#pagebreak()") line then
      .closeMark closePBStr :: .line line :: .openMark reopenStr ::
        wrapGo lines fuel (i + 1) inH2
    else
      let isH2 :=
        containsSub (chars "#v(") line && containsSub (chars "em)") line &&
        decide (i + 1 < lines.length) &&
        containsSub (chars "#block(above: 0em, below:") (lines.getD (i + 1) []) &&
        containsSub (chars "em)[") (lines.getD (i + 1) []) &&
        ((lines.drop (i + 2)).take 3).any (containsSub h2TextPat)
      let pre1 : List Piece :=
        if isH2 then
          (if inH2 then [.closeMark closeMidStr, .openMark openBlockStr]
           else [.openMark openBlockStr])
        else []
      let s1 := if isH2 then true else inH2
      let isH1 :=
        containsSub (chars "#v(") line && containsSub (chars "em)") line &&
        ((lines.drop (i + 1)).take 10).any (containsSub h1TextPat)
      let pre2 : List Piece := if isH1 && s1 then [.closeMark closeMidStr] else []
      let s2 := if isH1 && s1 then false else s1
      pre1 ++ pre2 ++ (.line line :: wrapGo lines fuel (i + 1) s2)

/-- The full scan of `wrap_h2_sections` over a list of input lines. -/
def wrapPieces (lines : List Str) : List Piece :=
  wrapGo lines lines.length 0 false

/-- Render one piece as the text `wrap_h2_sections` pushes for it. -/
def renderPiece : Piece → Str
  | .line s => s ++ ['\n']
  | .openMark s => s
  | .closeMark s => s

/-- Rust `str::lines` helper: strip one trailing `'\r'` (lines terminated by
`"\r\n"`). -/
def stripTrailCr (l : Str) : Str :=
  if l.getLast? == some '\r' then l.dropLast else l

/-- Rust `str::lines` worker: `acc` holds the current line reversed. -/
def linesAux : Str → Str → List Str
  | acc, [] => [acc.reverse]
  | acc, c :: r =>
    if c == '\n' then
      stripTrailCr acc.reverse :: (if r.isEmpty then [] else linesAux [] r)
    else
      linesAux (c :: acc) r

/-- Rust `str::lines`. -/
def linesOf (s : Str) : List Str :=
  if s.isEmpty then [] else linesAux [] s

/-- `PdfRenderer::wrap_h2_sections`. -/
def wrap_h2_sections (content : Str) : Str :=
  ((wrapPieces (linesOf content)).map renderPiece).flatten

/-- The inserted keep-together markers, in emission order (`true` = open
marker, `false` = close marker). -/
def markerTokens (pieces : List Piece) : List Bool :=
  pieces.filterMap fun
    | .openMark _ => some true
    | .closeMark _ => some false
    | .line _ => none

/-- Checker for the keep-together invariant: from state `s` (`true` = a block
is open), the emitted marker tokens alternate (close iff a block is open) and
any open block is eventually closed. -/
def altOk : Bool → List Bool → Bool
  | s, [] => !s
  | s, t :: r => (t == !s) && altOk t r

/-! ## Structural promoter (`enhance_company_names`)

The five promotion regexes of the source all have shape `(?m)^ body $` where
`body` is a sequence of literal characters and greedy character-class
quantifiers.  The `regex` crate's leftmost-first semantics for such patterns
is plain backtracking: greedy quantifiers try the longest repetition first.
Note the classes `[^*]`, `[^)]`, `[^_]` and `\s` all match `'\n'`, and with
`(?m)` the anchors `^`/`$` match at line boundaries, so a match may span
lines.  `.` (in `(.+)`) does not match `'\n'`. -/

/-- One regex atom: a literal character, a greedy quantified character class
(`plus` requires at least one repetition, `capture` records the consumed
text as a capture group), or the `(?m)` end-of-line anchor `$`. -/
inductive Atom where
  | lit (c : Char)
  | cls (f : Char → Bool) (capture : Bool) (plus : Bool)
  | dollar

/-- Attempt the continuation after the class consumed exactly `k` characters
of `s`, recording them as a capture when asked. -/
def tryAt (cont : Str → Option (Nat × List Str)) (s : Str) (capture : Bool)
    (k : Nat) : Option (Nat × List Str) :=
  match cont (s.drop k) with
  | some (n, caps) => some (k + n, if capture then s.take k :: caps else caps)
  | none => none

/-- Greedy backtracking for one quantified class: try consuming `k` characters
(all within the maximal run satisfying the class), then `k - 1`, ... down to
`lo` (1 for `+`, 0 for `*`), returning the first success of the continuation
`cont` together with the consumed count. -/
def tryK (cont : Str → Option (Nat × List Str)) (s : Str) (capture : Bool)
    (lo : Nat) : Nat → Option (Nat × List Str)
  | 0 => if 0 < lo then none else tryAt cont s capture 0
  | k + 1 =>
    if k + 1 < lo then none
    else
      match tryAt cont s capture (k + 1) with
      | some r => some r
      | none => tryK cont s capture lo k

/-- Match a sequence of atoms at the start of `s`, returning the number of
characters consumed and the capture groups in order (leftmost-first
semantics). -/
def matchA : List Atom → Str → Option (Nat × List Str)
  | [], _ => some (0, [])
  | .dollar :: rest, s =>
    if s.isEmpty || s.headD ' ' == '\n' then matchA rest s else none
  | .lit c :: rest, s =>
    match s with
    | [] => none
    | x :: xs =>
      if x == c then (matchA rest xs).map (fun p => (p.1 + 1, p.2)) else none
  | .cls f capture plus :: rest, s =>
    tryK (matchA rest) s capture (if plus then 1 else 0)
      (s.takeWhile f).length

/-- One piece of a replacement template: literal text or a capture reference
(`$1` is reference 0, and so on). -/
inductive RPiece where
  | txt (s : Str)
  | ref (i : Nat)

/-- Instantiate a replacement template with the captures of a match. -/
def renderRepl (repl : List RPiece) (caps : List Str) : Str :=
  (repl.map fun
    | .txt s => s
    | .ref i => caps.getD i []).flatten

/-- `Regex::replace_all` for a `^`-anchored pattern, fuel-indexed so that it
is structural.  `bol` records whether the current position is a line start
(string start or just after `'\n'`); matches are attempted exactly there.
After a match of `n > 0` characters the scan resumes at its end, `bol` being
recomputed from the last consumed character.  Every step consumes at least one
character, so fuel `s.length + 1` always suffices; the `n == 0` branch is dead
code for the anchored nonempty patterns below and only keeps fuel adequate. -/
def scanF (pat : List Atom) (repl : List RPiece) :
    Nat → Str → Bool → Str
  | 0, s, _ => s
  | _ + 1, [], _ => []
  | fuel + 1, c :: cs, bol =>
    if bol then
      match matchA pat (c :: cs) with
      | some (n, caps) =>
        if n == 0 then
          c :: scanF pat repl fuel cs (c == '\n')
        else
          renderRepl repl caps ++
            scanF pat repl fuel ((c :: cs).drop n)
              ((c :: cs).getD (n - 1) ' ' == '\n')
      | none => c :: scanF pat repl fuel cs (c == '\n')
    else
      c :: scanF pat repl fuel cs (c == '\n')

/-- `Regex::replace_all` on a whole haystack (position 0 is a line start). -/
def replaceAll (pat : List Atom) (repl : List RPiece) (s : Str) : Str :=
  scanF pat repl (s.length + 1) s true

/-- True when the pattern matches at no line start of `s` begun from `bol`
(so `replaceAll` is the identity there). -/
def matchFree (pat : List Atom) : Str → Bool → Bool
  | [], _ => true
  | c :: cs, bol =>
    (!bol || (matchA pat (c :: cs)).isNone) && matchFree pat cs (c == '\n')

/-- Pattern 1: `(?m)^\*\*([^*]+)\*\*\s*\(([^)]+)\)\s*$`. -/
def companyPat : List Atom :=
  [.lit '*', .lit '*', .cls (fun c => c != '*') true true, .lit '*', .lit '*',
   .cls isRustWhitespace false false, .lit '(',
   .cls (fun c => c != ')') true true, .lit ')',
   .cls isRustWhitespace false false, .dollar]

/-- Replacement `## $1 ($2)`. -/
def companyRepl : List RPiece :=
  [.txt (chars "## "), .ref 0, .txt (chars " ("), .ref 1, .txt (chars ")")]

/-- Pattern 2: `(?m)^_([^_]+)_,\s*(.+)$`. -/
def jobUnderscorePat : List Atom :=
  [.lit '_', .cls (fun c => c != '_') true true, .lit '_', .lit ',',
   .cls isRustWhitespace false false, .cls (fun c => c != '\n') true true,
   .dollar]

/-- Replacement `### **$1**, $2`. -/
def jobRepl : List RPiece :=
  [.txt (chars "### **"), .ref 0, .txt (chars "**, "), .ref 1]

/-- Pattern 3: `(?m)^\*([^*]+)\*,\s*(.+)$`. -/
def jobAsteriskPat : List Atom :=
  [.lit '*', .cls (fun c => c != '*') true true, .lit '*', .lit ',',
   .cls isRustWhitespace false false, .cls (fun c => c != '\n') true true,
   .dollar]

/-- Pattern 4: `(?m)^_([^_]+)_\s*$`. -/
def degreeUnderscorePat : List Atom :=
  [.lit '_', .cls (fun c => c != '_') true true, .lit '_',
   .cls isRustWhitespace false false, .dollar]

/-- Replacement `### **$1**`. -/
def degreeRepl : List RPiece :=
  [.txt (chars "### **"), .ref 0, .txt (chars "**")]

/-- Pattern 5: `(?m)^\*([^*]+)\*\s*$`. -/
def degreeAsteriskPat : List Atom :=
  [.lit '*', .cls (fun c => c != '*') true true, .lit '*',
   .cls isRustWhitespace false false, .dollar]

/-- `PdfRenderer::enhance_company_names`: the five `replace_all` passes in
source order, each over the cumulative output of the previous ones. -/
def enhance_company_names (content : Str) : Str :=
  replaceAll degreeAsteriskPat degreeRepl
    (replaceAll degreeUnderscorePat degreeRepl
      (replaceAll jobAsteriskPat jobRepl
        (replaceAll jobUnderscorePat jobRepl
          (replaceAll companyPat companyRepl content))))

/-- A single line (no `'\n'`) matches a promotion pattern as a whole line. -/
def wholeLineMatch (pat : List Atom) (l : Str) : Bool :=
  match matchA pat l with
  | some (n, _) => n == l.length
  | none => false

/-- The line, alone, matches one of the five promotion patterns. -/
def anyPromotionMatch (l : Str) : Bool :=
  wholeLineMatch companyPat l || wholeLineMatch jobUnderscorePat l ||
  wholeLineMatch jobAsteriskPat l || wholeLineMatch degreeUnderscorePat l ||
  wholeLineMatch degreeAsteriskPat l

/-- None of the five promotion patterns matches anywhere in the text. -/
def matchFreeAll (s : Str) : Bool :=
  matchFree companyPat s true && matchFree jobUnderscorePat s true &&
  matchFree jobAsteriskPat s true && matchFree degreeUnderscorePat s true &&
  matchFree degreeAsteriskPat s true

/-- Example transpiled lines used in concrete instances: a level-2 heading
block, body text, an explicit page-break directive line, further content. -/
def exampleH2Lines : List Str :=
  [chars "#v(1.2em)",
   chars "#block(above: 0em, below: 0.8em)[",
   chars "  #text(size: 14pt, weight: \"bold\", fill: rgb(\"#607D8B\"))[Co]",
   chars "body",
   chars "#pagebreak()",
   chars "after"]

/-! ## Lemmas -/

theorem pbChunk_cons : pbChunk = '\n' :: '#' :: 'p' :: chars "agebreak()\n\n" := rfl

theorem ne_pb_of_head (c : Char) (x : Str) (h : c ≠ '\n') : c :: x ≠ pbChunk := by
  rw [pbChunk_cons]; intro he; injection he with h1 _; exact h h1

theorem ne_pb_two (c1 c2 : Char) (x : Str) (h : c2 ≠ '#') : c1 :: c2 :: x ≠ pbChunk := by
  rw [pbChunk_cons]; intro he
  injection he with _ he2; injection he2 with h2 _; exact h h2

theorem ne_pb_three (c1 c2 c3 : Char) (x : Str) (h : c3 ≠ 'p') :
    c1 :: c2 :: c3 :: x ≠ pbChunk := by
  rw [pbChunk_cons]; intro he
  injection he with _ he2; injection he2 with _ he3; injection he3 with h3 _
  exact h h3

theorem replChar_append (t : Char) (a b : Str) :
    replChar t (a ++ b) = replChar t a ++ replChar t b := by
  simp [replChar]

theorem escapeTypst_eq_flatMap (s : Str) : escapeTypst s = s.flatMap escChar := by
  induction s with
  | nil => rfl
  | cons c s ih =>
    show replChar '$' (replChar '#' (replChar '@' (c :: s))) = _
    have h1 : replChar '@' (c :: s) =
        (if c == '@' then ['\\', '@'] else [c]) ++ replChar '@' s := by
      simp [replChar]
    rw [h1, replChar_append, replChar_append]
    have key : replChar '$' (replChar '#' (if c == '@' then ['\\', '@'] else [c])) =
        escChar c := by
      by_cases h : c = '@'
      · subst h; rfl
      · by_cases h2 : c = '#'
        · subst h2; rfl
        · by_cases h3 : c = '$'
          · subst h3; rfl
          · simp [replChar, escChar, h, h2, h3]
    rw [key, List.flatMap_cons]
    exact congrArg _ ih

theorem flatMap_escChar_ne_hash (s : Str) : ∀ l : Str, s.flatMap escChar ≠ '#' :: l := by
  induction s with
  | nil => intro l h; exact absurd h (by simp)
  | cons c s ih =>
    intro l h
    rw [List.flatMap_cons] at h
    by_cases h1 : c = '@'
    · subst h1; exact absurd (List.head_eq_of_cons_eq h) (by decide)
    · by_cases h2 : c = '#'
      · subst h2; exact absurd (List.head_eq_of_cons_eq h) (by decide)
      · by_cases h3 : c = '$'
        · subst h3; exact absurd (List.head_eq_of_cons_eq h) (by decide)
        · have hc : escChar c = [c] := by simp [escChar, h1, h2, h3]
          rw [hc] at h
          have hc2 : c = '#' := List.head_eq_of_cons_eq h
          exact h2 hc2

theorem escapeTypst_ne_pb (s : Str) : escapeTypst s ≠ pbChunk := by
  rw [escapeTypst_eq_flatMap, pbChunk_cons]
  cases s with
  | nil => simp
  | cons c s =>
    intro h
    rw [List.flatMap_cons] at h
    by_cases h1 : c = '@'
    · subst h1; exact absurd (List.head_eq_of_cons_eq h) (by decide)
    · by_cases h2 : c = '#'
      · subst h2; exact absurd (List.head_eq_of_cons_eq h) (by decide)
      · by_cases h3 : c = '$'
        · subst h3; exact absurd (List.head_eq_of_cons_eq h) (by decide)
        · have hc : escChar c = [c] := by simp [escChar, h1, h2, h3]
          rw [hc] at h
          have := List.tail_eq_of_cons_eq h
          exact flatMap_escChar_ne_hash s _ this

theorem count0 {l : List Str} (h : pbChunk ∉ l) : l.count pbChunk = 0 :=
  List.count_eq_zero.mpr h

theorem count1 : List.count pbChunk [pbChunk] = 1 := by simp

theorem itemChunk_ne_pb (d : Nat) :
    chars "\n" ++ List.flatten (List.replicate d (chars "  ")) ++ chars "• " ≠ pbChunk := by
  cases d with
  | zero => decide
  | succ n =>
    show '\n' :: (' ' :: _) ≠ pbChunk
    exact ne_pb_two _ _ _ (by decide)

theorem step_pb_count (theme : Theme) (ctx : RenderContext) (e : Event)
    (cs : List Str) (ctx' : RenderContext)
    (h : step theme ctx e = some (cs, ctx')) :
    cs.count pbChunk = if isPagebreakRequest e then 1 else 0 := by
  cases e with
  | start tag =>
    simp only [isPagebreakRequest, if_neg Bool.false_ne_true]
    cases tag with
    | heading level =>
      cases level <;>
      · simp only [step, handle_start_tag, Option.some.injEq, Prod.mk.injEq] at h
        obtain ⟨hcs, -⟩ := h
        subst hcs
        refine count0 ?_
        simp only [List.mem_cons, List.not_mem_nil, or_false, not_or]
        first
        | exact ⟨Ne.symm (ne_pb_three _ _ _ _ (by decide)),
                 by decide, by decide,
                 Ne.symm (ne_pb_of_head _ _ (by decide)),
                 by decide, by decide, by decide,
                 Ne.symm (ne_pb_of_head _ _ (by decide))⟩
        | exact ⟨Ne.symm (ne_pb_three _ _ _ _ (by decide)),
                 Ne.symm (ne_pb_of_head _ _ (by decide))⟩
        | exact ⟨Ne.symm (ne_pb_three _ _ _ _ (by decide)),
                 Ne.symm (ne_pb_of_head _ _ (by decide)),
                 Ne.symm (ne_pb_of_head _ _ (by decide))⟩
    | paragraph =>
      simp only [step, handle_start_tag, Option.some.injEq, Prod.mk.injEq] at h
      obtain ⟨hcs, -⟩ := h
      subst hcs
      split
      · exact count0 (by decide)
      · rfl
    | list =>
      simp only [step, handle_start_tag, Option.some.injEq, Prod.mk.injEq] at h
      obtain ⟨hcs, -⟩ := h
      subst hcs
      split
      · exact count0 (by decide)
      · rfl
    | item =>
      simp only [step, handle_start_tag] at h
      split at h
      · exact absurd h (by simp)
      · simp only [Option.some.injEq, Prod.mk.injEq] at h
        obtain ⟨hcs, -⟩ := h
        subst hcs
        refine count0 ?_
        simp only [List.mem_cons, List.not_mem_nil, or_false, not_or]
        exact Ne.symm (itemChunk_ne_pb _)
    | strong =>
      simp only [step, handle_start_tag, Option.some.injEq, Prod.mk.injEq] at h
      obtain ⟨hcs, -⟩ := h; subst hcs; exact count0 (by decide)
    | emphasis =>
      simp only [step, handle_start_tag, Option.some.injEq, Prod.mk.injEq] at h
      obtain ⟨hcs, -⟩ := h; subst hcs; exact count0 (by decide)
    | strikethrough =>
      simp only [step, handle_start_tag, Option.some.injEq, Prod.mk.injEq] at h
      obtain ⟨hcs, -⟩ := h; subst hcs; exact count0 (by decide)
    | link url =>
      simp only [step, handle_start_tag, Option.some.injEq, Prod.mk.injEq] at h
      obtain ⟨hcs, -⟩ := h; subst hcs
      refine count0 ?_
      simp only [List.mem_cons, List.not_mem_nil, or_false, not_or]
      exact Ne.symm (ne_pb_of_head '#' _ (by decide))
    | codeBlock =>
      simp only [step, handle_start_tag, Option.some.injEq, Prod.mk.injEq] at h
      obtain ⟨hcs, -⟩ := h; subst hcs; exact count0 (by decide)
    | blockQuote =>
      simp only [step, handle_start_tag, Option.some.injEq, Prod.mk.injEq] at h
      obtain ⟨hcs, -⟩ := h; subst hcs; exact count0 (by decide)
    | otherTag =>
      simp only [step, handle_start_tag, Option.some.injEq, Prod.mk.injEq] at h
      obtain ⟨hcs, -⟩ := h; subst hcs; rfl
  | endTag tag =>
    simp only [isPagebreakRequest, if_neg Bool.false_ne_true]
    cases tag with
    | heading level =>
      simp only [step, handle_end_tag] at h
      split at h
      · simp only [Option.some.injEq, Prod.mk.injEq] at h
        obtain ⟨hcs, -⟩ := h
        subst hcs
        refine count0 ?_
        cases hl : ctx.heading_level
        case h1 =>
          show pbChunk ∉
            [chars "]", h1SeparatorChunk theme, chars "]\n", chars "#v(0.2em)\n"]
          simp only [List.mem_cons, List.not_mem_nil, or_false, not_or]
          exact ⟨by decide, Ne.symm (ne_pb_two _ _ _ (by decide)), by decide, by decide⟩
        case h2 =>
          show pbChunk ∉ [chars "]\n"]
          decide
        all_goals (show pbChunk ∉ [chars "]", chars "]\n"]; decide)
      · simp only [Option.some.injEq, Prod.mk.injEq] at h
        obtain ⟨hcs, -⟩ := h; subst hcs; rfl
    | paragraph =>
      simp only [step, handle_end_tag, Option.some.injEq, Prod.mk.injEq] at h
      obtain ⟨hcs, -⟩ := h; subst hcs
      split
      · exact count0 (by decide)
      · rfl
    | list =>
      simp only [step, handle_end_tag] at h
      split at h
      · exact absurd h (by simp)
      · simp only [Option.some.injEq, Prod.mk.injEq] at h
        obtain ⟨hcs, -⟩ := h; subst hcs
        split
        · exact count0 (by decide)
        · rfl
    | strong =>
      simp only [step, handle_end_tag, Option.some.injEq, Prod.mk.injEq] at h
      obtain ⟨hcs, -⟩ := h; subst hcs; exact count0 (by decide)
    | emphasis =>
      simp only [step, handle_end_tag, Option.some.injEq, Prod.mk.injEq] at h
      obtain ⟨hcs, -⟩ := h; subst hcs; exact count0 (by decide)
    | strikethrough =>
      simp only [step, handle_end_tag, Option.some.injEq, Prod.mk.injEq] at h
      obtain ⟨hcs, -⟩ := h; subst hcs; exact count0 (by decide)
    | link =>
      simp only [step, handle_end_tag, Option.some.injEq, Prod.mk.injEq] at h
      obtain ⟨hcs, -⟩ := h; subst hcs; exact count0 (by decide)
    | codeBlock =>
      simp only [step, handle_end_tag, Option.some.injEq, Prod.mk.injEq] at h
      obtain ⟨hcs, -⟩ := h; subst hcs; exact count0 (by decide)
    | blockQuote =>
      simp only [step, handle_end_tag, Option.some.injEq, Prod.mk.injEq] at h
      obtain ⟨hcs, -⟩ := h; subst hcs; exact count0 (by decide)
    | item =>
      simp only [step, handle_end_tag, Option.some.injEq, Prod.mk.injEq] at h
      obtain ⟨hcs, -⟩ := h; subst hcs; exact count0 (by decide)
    | otherEnd =>
      simp only [step, handle_end_tag, Option.some.injEq, Prod.mk.injEq] at h
      obtain ⟨hcs, -⟩ := h; subst hcs; rfl
  | text s =>
    simp only [step, Option.some.injEq, Prod.mk.injEq] at h
    obtain ⟨hcs, -⟩ := h
    subst hcs
    simp only [isPagebreakRequest]
    by_cases hs : rustTrim s == sentinel
    · simp [handle_text, hs, count1]
    · simp only [Bool.not_eq_true] at hs
      simp only [handle_text, hs, if_neg Bool.false_ne_true, Bool.false_eq_true,
        if_false]
      split
      · split
        · refine count0 ?_
          simp only [List.mem_cons, List.not_mem_nil, or_false, not_or]
          exact Ne.symm (ne_pb_of_head ' ' _ (by decide))
        · refine count0 ?_
          simp only [List.mem_cons, List.not_mem_nil, or_false, not_or]
          exact Ne.symm (ne_pb_of_head ' ' _ (by decide))
      · refine count0 ?_
        simp only [List.mem_cons, List.not_mem_nil, or_false, not_or]
        exact Ne.symm (escapeTypst_ne_pb s)
  | code s =>
    simp only [step, Option.some.injEq, Prod.mk.injEq] at h
    obtain ⟨hcs, -⟩ := h; subst hcs
    refine count0 ?_
    simp only [List.mem_cons, List.not_mem_nil, or_false, not_or]
    exact Ne.symm (ne_pb_of_head '`' _ (by decide))
  | softBreak =>
    simp only [step, Option.some.injEq, Prod.mk.injEq] at h
    obtain ⟨hcs, -⟩ := h; subst hcs; exact count0 (by decide)
  | hardBreak =>
    simp only [step, Option.some.injEq, Prod.mk.injEq] at h
    obtain ⟨hcs, -⟩ := h; subst hcs; exact count0 (by decide)
  | html s =>
    simp only [step, Option.some.injEq, Prod.mk.injEq] at h
    obtain ⟨hcs, -⟩ := h
    subst hcs
    simp only [isPagebreakRequest]
    by_cases hs : rustTrim s == pbComment
    · simp [hs, count1]
    · simp only [Bool.not_eq_true] at hs
      simp [hs]
  | other =>
    simp only [step, Option.some.injEq, Prod.mk.injEq] at h
    obtain ⟨hcs, -⟩ := h; subst hcs; rfl

theorem markerTokens_nil : markerTokens [] = [] := rfl

theorem markerTokens_cons_line (s : Str) (l : List Piece) :
    markerTokens (.line s :: l) = markerTokens l := rfl

theorem markerTokens_cons_open (s : Str) (l : List Piece) :
    markerTokens (.openMark s :: l) = true :: markerTokens l := rfl

theorem markerTokens_cons_close (s : Str) (l : List Piece) :
    markerTokens (.closeMark s :: l) = false :: markerTokens l := rfl

theorem markerTokens_append (a b : List Piece) :
    markerTokens (a ++ b) = markerTokens a ++ markerTokens b := by
  simp [markerTokens]

theorem wrapGo_altOk (lines : List Str) :
    ∀ (fuel i : Nat) (s : Bool),
      altOk s (markerTokens (wrapGo lines fuel i s)) = true := by
  intro fuel
  induction fuel with
  | zero =>
    intro i s
    cases s <;> rfl
  | succ f ih =>
    intro i s
    rw [wrapGo]
    by_cases hpb : (s && containsSub (chars "#pagebreak()") (lines.getD i [])) = true
    · rw [if_pos hpb]
      have hs : s = true := by revert hpb; cases s <;> simp
      subst hs
      simpa [markerTokens_cons_close, markerTokens_cons_line,
        markerTokens_cons_open, altOk] using ih (i + 1) true
    · rw [if_neg hpb]
      by_cases hh2 :
          (containsSub (chars "#v(") (lines.getD i []) &&
           containsSub (chars "em)") (lines.getD i []) &&
           decide (i + 1 < lines.length) &&
           containsSub (chars "#block(above: 0em, below:") (lines.getD (i + 1) []) &&
           containsSub (chars "em)[") (lines.getD (i + 1) []) &&
           (List.take 3 (List.drop (i + 2) lines)).any (containsSub h2TextPat)) = true
      · by_cases hh1 :
            (containsSub (chars "#v(") (lines.getD i []) &&
             containsSub (chars "em)") (lines.getD i []) &&
             (List.take 10 (List.drop (i + 1) lines)).any (containsSub h1TextPat)) = true
        · cases s
          · simp only [if_pos hh2, Bool.false_eq_true, if_false, Bool.and_true,
              if_pos hh1, markerTokens_append, markerTokens_cons_close,
              markerTokens_cons_open, markerTokens_cons_line, markerTokens_nil,
              List.cons_append, List.nil_append, altOk, Bool.not_true,
              Bool.not_false, beq_self_eq_true, Bool.true_and]
            exact ih (i + 1) false
          · simp only [if_pos hh2, eq_self_iff_true, if_true, Bool.and_true,
              if_pos hh1, markerTokens_append, markerTokens_cons_close,
              markerTokens_cons_open, markerTokens_cons_line, markerTokens_nil,
              List.cons_append, List.nil_append, altOk, Bool.not_true,
              Bool.not_false, beq_self_eq_true, Bool.true_and]
            exact ih (i + 1) false
        · cases s
          · simp only [if_pos hh2, Bool.false_eq_true, if_false, Bool.and_true,
              if_neg hh1, markerTokens_append, markerTokens_cons_close,
              markerTokens_cons_open, markerTokens_cons_line, markerTokens_nil,
              List.cons_append, List.nil_append, altOk, Bool.not_true,
              Bool.not_false, beq_self_eq_true, Bool.true_and]
            exact ih (i + 1) true
          · simp only [if_pos hh2, eq_self_iff_true, if_true, Bool.and_true,
              if_neg hh1, markerTokens_append, markerTokens_cons_close,
              markerTokens_cons_open, markerTokens_cons_line, markerTokens_nil,
              List.cons_append, List.nil_append, altOk, Bool.not_true,
              Bool.not_false, beq_self_eq_true, Bool.true_and]
            exact ih (i + 1) true
      · by_cases hh1 :
            (containsSub (chars "#v(") (lines.getD i []) &&
             containsSub (chars "em)") (lines.getD i []) &&
             (List.take 10 (List.drop (i + 1) lines)).any (containsSub h1TextPat)) = true
        · cases s
          · simp only [if_neg hh2, Bool.and_false, Bool.false_eq_true, if_false,
              markerTokens_append, markerTokens_cons_close,
              markerTokens_cons_open, markerTokens_cons_line, markerTokens_nil,
              List.cons_append, List.nil_append, altOk, Bool.not_true,
              Bool.not_false, beq_self_eq_true, Bool.true_and]
            exact ih (i + 1) false
          · simp only [if_neg hh2, Bool.and_true, if_pos hh1,
              markerTokens_append, markerTokens_cons_close,
              markerTokens_cons_open, markerTokens_cons_line, markerTokens_nil,
              List.cons_append, List.nil_append, altOk, Bool.not_true,
              Bool.not_false, beq_self_eq_true, Bool.true_and]
            exact ih (i + 1) false
        · cases s
          · simp only [if_neg hh2, Bool.and_false, Bool.false_eq_true, if_false,
              markerTokens_append, markerTokens_cons_close,
              markerTokens_cons_open, markerTokens_cons_line, markerTokens_nil,
              List.cons_append, List.nil_append, altOk, Bool.not_true,
              Bool.not_false, beq_self_eq_true, Bool.true_and]
            exact ih (i + 1) false
          · simp only [if_neg hh2, Bool.and_true, if_neg hh1,
              markerTokens_append, markerTokens_cons_close,
              markerTokens_cons_open, markerTokens_cons_line, markerTokens_nil,
              List.cons_append, List.nil_append, altOk, Bool.not_true,
              Bool.not_false, beq_self_eq_true, Bool.true_and]
            exact ih (i + 1) true

theorem altOk_count (l : List Bool) :
    ∀ s : Bool, altOk s l = true →
      l.count false = l.count true + (if s then 1 else 0) := by
  induction l with
  | nil =>
    intro s h
    cases s
    · rfl
    · exact absurd h (by decide)
  | cons b r ih =>
    intro s h
    simp only [altOk, Bool.and_eq_true, beq_iff_eq] at h
    obtain ⟨hb, hr⟩ := h
    subst hb
    have hc := ih (!s) hr
    cases s <;> simp_all [List.count_cons]

theorem transpileGo_pb_count (theme : Theme) :
    ∀ (evs : List Event) (ctx : RenderContext) (cs : List Str)
      (ctx' : RenderContext),
      transpileGo theme ctx evs = some (cs, ctx') →
      cs.count pbChunk = countRequests evs := by
  intro evs
  induction evs with
  | nil =>
    intro ctx cs ctx' h
    simp only [transpileGo, Option.some.injEq, Prod.mk.injEq] at h
    obtain ⟨hcs, -⟩ := h
    subst hcs
    rfl
  | cons e es ih =>
    intro ctx cs ctx' h
    rw [transpileGo] at h
    cases hstep : step theme ctx e with
    | none => rw [hstep] at h; exact absurd h (by simp)
    | some p =>
      obtain ⟨cs1, ctx1⟩ := p
      simp only [hstep] at h
      cases hrec : transpileGo theme ctx1 es with
      | none => simp only [hrec] at h; exact absurd h (by simp)
      | some q =>
        obtain ⟨cs2, ctx2⟩ := q
        simp only [hrec] at h
        simp only [Option.some.injEq, Prod.mk.injEq] at h
        obtain ⟨hcs, -⟩ := h
        subst hcs
        rw [List.count_append, step_pb_count theme ctx e cs1 ctx1 hstep,
          ih ctx1 cs2 ctx2 hrec]
        simp [countRequests, List.countP_cons, Nat.add_comm]

theorem step_total_of_depth (theme : Theme) (ctx : RenderContext) (e : Event)
    (hItem : e = .start .item → ctx.list_depth ≠ 0)
    (hList : e = .endTag .list → ctx.list_depth ≠ 0) :
    ∃ cs ctx', step theme ctx e = some (cs, ctx') := by
  cases e with
  | start tag =>
    cases tag with
    | heading level => cases level <;> exact ⟨_, _, rfl⟩
    | item =>
      have hd : ctx.list_depth ≠ 0 := hItem rfl
      simp only [step, handle_start_tag,
        if_neg (show ¬(ctx.list_depth == 0) = true by simpa using hd)]
      exact ⟨_, _, rfl⟩
    | _ => exact ⟨_, _, rfl⟩
  | endTag tag =>
    cases tag with
    | list =>
      have hd : ctx.list_depth ≠ 0 := hList rfl
      simp only [step, handle_end_tag,
        if_neg (show ¬(ctx.list_depth == 0) = true by simpa using hd)]
      exact ⟨_, _, rfl⟩
    | heading level =>
      by_cases hh : ctx.in_heading = true
      · simp only [step, handle_end_tag, if_pos hh]
        exact ⟨_, _, rfl⟩
      · simp only [step, handle_end_tag, if_neg hh]
        exact ⟨_, _, rfl⟩
    | _ => exact ⟨_, _, rfl⟩
  | _ => exact ⟨_, _, rfl⟩

theorem step_depth (theme : Theme) (ctx : RenderContext) (e : Event)
    (cs : List Str) (ctx' : RenderContext)
    (h : step theme ctx e = some (cs, ctx')) :
    ctx'.list_depth =
      match e with
      | .start .list => ctx.list_depth + 1
      | .endTag .list => ctx.list_depth - 1
      | _ => ctx.list_depth := by
  cases e with
  | start tag =>
    cases tag with
    | heading level =>
      cases level <;>
      · simp only [step, handle_start_tag, Option.some.injEq, Prod.mk.injEq] at h
        obtain ⟨-, hctx⟩ := h
        subst hctx
        rfl
    | item =>
      simp only [step, handle_start_tag] at h
      split at h
      · exact absurd h (by simp)
      · simp only [Option.some.injEq, Prod.mk.injEq] at h
        obtain ⟨-, hctx⟩ := h
        subst hctx
        rfl
    | _ =>
      simp only [step, handle_start_tag, Option.some.injEq, Prod.mk.injEq] at h
      obtain ⟨-, hctx⟩ := h
      subst hctx
      rfl
  | endTag tag =>
    cases tag with
    | heading level =>
      simp only [step, handle_end_tag] at h
      split at h <;>
      · simp only [Option.some.injEq, Prod.mk.injEq] at h
        obtain ⟨-, hctx⟩ := h
        subst hctx
        rfl
    | list =>
      simp only [step, handle_end_tag] at h
      split at h
      · exact absurd h (by simp)
      · simp only [Option.some.injEq, Prod.mk.injEq] at h
        obtain ⟨-, hctx⟩ := h
        subst hctx
        rfl
    | _ =>
      simp only [step, handle_end_tag, Option.some.injEq, Prod.mk.injEq] at h
      obtain ⟨-, hctx⟩ := h
      subst hctx
      rfl
  | _ =>
    simp only [step, Option.some.injEq, Prod.mk.injEq] at h
    obtain ⟨-, hctx⟩ := h
    subst hctx
    rfl

theorem transpileGo_total (theme : Theme) :
    ∀ (evs : List Event) (ctx : RenderContext),
      depthOk ctx.list_depth evs = true →
      (transpileGo theme ctx evs).isSome = true := by
  intro evs
  induction evs with
  | nil => intro ctx _; rfl
  | cons e es ih =>
    intro ctx hok
    have hItem : e = .start .item → ctx.list_depth ≠ 0 := by
      intro he
      subst he
      rw [depthOk] at hok
      intro h0
      rw [h0] at hok
      simp at hok
    have hList : e = .endTag .list → ctx.list_depth ≠ 0 := by
      intro he
      subst he
      rw [depthOk] at hok
      intro h0
      rw [h0] at hok
      simp at hok
    obtain ⟨cs, ctx', hstep⟩ := step_total_of_depth theme ctx e hItem hList
    have hdep := step_depth theme ctx e cs ctx' hstep
    have hok' : depthOk ctx'.list_depth es = true := by
      cases e with
      | start tag =>
        cases tag <;>
          simp_all [depthOk, Bool.and_eq_true]
      | endTag tag =>
        cases tag <;>
          simp_all [depthOk, Bool.and_eq_true]
      | _ => simp_all [depthOk]
    have hrec := ih ctx' hok'
    rw [transpileGo]
    simp only [hstep]
    cases hq : transpileGo theme ctx' es with
    | none => rw [hq] at hrec; exact absurd hrec (by decide)
    | some q =>
      obtain ⟨a, b⟩ := q
      simp only [hq]
      rfl

theorem scanF_id (pat : List Atom) (repl : List RPiece) :
    ∀ (s : Str) (fuel : Nat) (bol : Bool),
      matchFree pat s bol = true → s.length ≤ fuel →
      scanF pat repl fuel s bol = s := by
  intro s
  induction s with
  | nil => intro fuel bol _ _; cases fuel <;> rfl
  | cons c cs ih =>
    intro fuel bol hmf hlen
    cases fuel with
    | zero => simp at hlen
    | succ f =>
      rw [scanF]
      simp only [matchFree, Bool.and_eq_true] at hmf
      obtain ⟨hb, hrest⟩ := hmf
      have hlen' : cs.length ≤ f := by
        simpa using Nat.le_of_succ_le_succ hlen
      cases hbol : bol with
      | false =>
        simp only [Bool.false_eq_true, if_false]
        exact congrArg _ (ih f _ hrest hlen')
      | true =>
        subst hbol
        have hnone : matchA pat (c :: cs) = none := by
          simpa using hb
        simp only [eq_self_iff_true, if_true, hnone]
        exact congrArg _ (ih f _ hrest hlen')

theorem replaceAll_id (pat : List Atom) (repl : List RPiece) (s : Str)
    (h : matchFree pat s true = true) :
    replaceAll pat repl s = s :=
  scanF_id pat repl s (s.length + 1) true h (Nat.le_succ _)

theorem wrapGo_pagebreak_unfold (lines : List Str) (fuel i : Nat)
    (h : containsSub (chars "#pagebreak()") (lines.getD i []) = true) :
    wrapGo lines (fuel + 1) i true =
      .closeMark closePBStr :: .line (lines.getD i []) :: .openMark reopenStr ::
        wrapGo lines fuel (i + 1) true := by
  rw [wrapGo]
  rw [if_pos (by simpa using h)]

/-! ## Claim theorems -/

/-- C1: for every event sequence the transpile pass accepts, the number of
page-break directive chunks it emits equals the total number of recognized
page-break requests: text events whose trimmed content is the sentinel plus
raw HTML events whose trimmed content is exactly the page-break comment. -/
theorem pagebreak_directive_count_exact (theme : Theme) (events : List Event)
    (cs : List Str) (ctx' : RenderContext)
    (h : transpile theme events = some (cs, ctx')) :
    cs.count pbChunk = countRequests events :=
  transpileGo_pb_count theme events RenderContext.new cs ctx' h

/-- Witness for C1 at a concrete event sequence with one request per channel. -/
theorem pagebreak_directive_count_exact_witness :
    ∃ out : List Str × RenderContext,
      transpile modernTheme
        [.text (chars " TYPST_PAGEBREAK_MARKER "),
         .html (chars "<!-- pagebreak -->"),
         .text (chars "hello"),
         .html (chars "<div>")] = some out ∧
      out.1.count pbChunk =
        countRequests
          [.text (chars " TYPST_PAGEBREAK_MARKER "),
           .html (chars "<!-- pagebreak -->"),
           .text (chars "hello"),
           .html (chars "<div>")] ∧
      countRequests
        [.text (chars " TYPST_PAGEBREAK_MARKER "),
         .html (chars "<!-- pagebreak -->"),
         .text (chars "hello"),
         .html (chars "<div>")] = 2 :=
  ⟨_, rfl, pagebreak_directive_count_exact _ _ _ _ rfl, by decide⟩

/-- C2: on every input string, the Section Grouper inserts as many open
markers as close markers, and the inserted markers alternate starting from
the closed state, so at most one inserted block is ever open. -/
theorem wrap_h2_markers_balanced (content : Str) :
    (markerTokens (wrapPieces (linesOf content))).count true =
      (markerTokens (wrapPieces (linesOf content))).count false ∧
    altOk false (markerTokens (wrapPieces (linesOf content))) = true := by
  have halt := wrapGo_altOk (linesOf content) (linesOf content).length 0 false
  refine ⟨?_, halt⟩
  have hc := altOk_count _ false halt
  simpa using hc.symm

/-- C3: when the Section Grouper reaches a line containing the page-break
directive while a block is open, it emits the close marker, then the line
unchanged, then a fresh open marker, and continues with a block open; on the
example input the full emission order is open, content, close, page-break
line, open, content, close. -/
theorem wrap_h2_pagebreak_splits_block :
    (∀ (lines : List Str) (fuel i : Nat),
      containsSub (chars "#pagebreak()") (lines.getD i []) = true →
      wrapGo lines (fuel + 1) i true =
        .closeMark closePBStr :: .line (lines.getD i []) :: .openMark reopenStr ::
          wrapGo lines fuel (i + 1) true) ∧
    wrapPieces exampleH2Lines =
      [.openMark openBlockStr,
       .line (chars "#v(1.2em)"),
       .line (chars "#block(above: 0em, below: 0.8em)["),
       .line (chars "  #text(size: 14pt, weight: \"bold\", fill: rgb(\"#607D8B\"))[Co]"),
       .line (chars "body"),
       .closeMark closePBStr,
       .line (chars "#pagebreak()"),
       .openMark reopenStr,
       .line (chars "after"),
       .closeMark closeEndStr] := by
  exact ⟨wrapGo_pagebreak_unfold, by rfl⟩

/-- Witness for C3's quantified part at a concrete scan position. -/
theorem wrap_h2_pagebreak_splits_block_witness :
    wrapGo exampleH2Lines 2 4 true =
      [.closeMark closePBStr, .line (chars "#pagebreak()"), .openMark reopenStr,
       .line (chars "after"), .closeMark closeEndStr] := by
  have h := wrap_h2_pagebreak_splits_block.1 exampleH2Lines 1 4 (by decide)
  rw [h]
  rfl

/-- C10: a raw HTML event whose trimmed content is not exactly the page-break
comment appends nothing and leaves the render state unchanged. -/
theorem raw_html_discarded (theme : Theme) (ctx : RenderContext) (s : Str)
    (h : rustTrim s ≠ pbComment) :
    step theme ctx (.html s) = some ([], ctx) := by
  have hb : (rustTrim s == pbComment) = false := beq_eq_false_iff_ne.mpr h
  simp [step, hb]

/-- Witness for C10 on a concrete raw HTML event. -/
theorem raw_html_discarded_witness :
    step modernTheme RenderContext.new (.html (chars "<div>note</div>")) =
      some ([], RenderContext.new) :=
  raw_html_discarded modernTheme RenderContext.new _ (by decide)

/-- C4: the Structural Promoter rewrites the bare line to a level-2 heading,
and the transpile pass renders the resulting level-2 heading events as two
text runs on one line: the company name in bold H2 style and the
parenthesized location in regular-weight H2 style. -/
theorem company_heading_two_tone :
    enhance_company_names (chars "**Acme Corp** (Remote)") =
      chars "## Acme Corp (Remote)" ∧
    ∀ theme : Theme,
      transpile theme
        [.start (.heading .h2), .text (chars "Acme Corp (Remote)"),
         .endTag (.heading .h2)] =
      some ([chars "\n#v(" ++ theme.color.get_h2_spacing_above ++ chars "em)\n",
             chars "#block(above: 0em, below: " ++
               theme.color.get_h2_spacing_below ++ chars "em)[\n",
             h2TwoToneChunk theme (chars "Acme Corp") (chars "(Remote)"),
             chars "]\n"],
            { list_depth := 0, in_heading := false, heading_level := .h2 }) := by
  exact ⟨by rfl, fun theme => rfl⟩

/-- C5 counterexample: a document embedding the page-break directive mid-line
turns into prose containing the sentinel, which the transpile pass reproduces
verbatim in its output, contradicting the claim for such inputs. -/
theorem sentinel_midline_counterexample :
    process_pagebreak_markers (chars "intro \\pagebreak outro") =
      chars "intro TYPST_PAGEBREAK_MARKER outro" ∧
    ∃ out : List Str × RenderContext,
      transpile modernTheme [.text (chars "intro TYPST_PAGEBREAK_MARKER outro")] =
        some out ∧
      containsSub sentinel out.1.flatten = true := by
  exact ⟨by rfl, _, rfl, by decide⟩

/-- C5 (amended): a text event whose trimmed content is exactly the sentinel,
and a raw HTML event whose trimmed content is exactly the page-break comment,
each emit precisely the page-break directive chunk, which does not contain
the sentinel. -/
theorem sentinel_channels_emit_directive :
    (∀ (theme : Theme) (ctx : RenderContext) (t : Str),
      rustTrim t = sentinel → handle_text t ctx theme = [pbChunk]) ∧
    (∀ (theme : Theme) (ctx : RenderContext) (s : Str),
      rustTrim s = pbComment → step theme ctx (.html s) = some ([pbChunk], ctx)) ∧
    containsSub sentinel pbChunk = false := by
  refine ⟨?_, ?_, by decide⟩
  · intro theme ctx t h
    simp [handle_text, h]
  · intro theme ctx s h
    simp [step, h]

/-- Witness for C5's amended statement on both channels. -/
theorem sentinel_channels_emit_directive_witness :
    handle_text (chars "  TYPST_PAGEBREAK_MARKER ") RenderContext.new modernTheme =
      [pbChunk] ∧
    step modernTheme RenderContext.new (.html (chars " <!-- pagebreak -->")) =
      some ([pbChunk], RenderContext.new) :=
  ⟨sentinel_channels_emit_directive.1 modernTheme RenderContext.new _ (by decide),
   sentinel_channels_emit_directive.2.1 modernTheme RenderContext.new _ (by decide)⟩

/-- C6 counterexample: an item event arriving while `list_depth` is 0 makes
the transpile pass fail (the `usize` subtraction `list_depth - 1` underflows:
a panic in debug builds, and the wrapped value then overflows the indent
`repeat` capacity in release builds). -/
theorem transpile_item_underflow_counterexample :
    transpile modernTheme [.start .item] = none := rfl

/-- C6 (amended): the transpile pass completes without panic or error on
every finite event sequence in which each item start and each list end occurs
at positive list depth; stray heading ends and unrecognized events are
tolerated. -/
theorem transpile_total_on_depthOk (theme : Theme) (events : List Event)
    (h : depthOk 0 events = true) :
    (transpile theme events).isSome = true :=
  transpileGo_total theme events RenderContext.new h

/-- Witness for C6's amended statement, including a stray heading end. -/
theorem transpile_total_on_depthOk_witness :
    (transpile modernTheme
      [.start .list, .start .item, .text (chars "x"), .endTag .item,
       .endTag .list, .endTag (.heading .h3)]).isSome = true :=
  transpile_total_on_depthOk modernTheme _ (by decide)

/-- C7 counterexample: for the modern theme, the separator line emitted at a
level-1 heading end uses the accent color `#FF6B35`, while the resolved
level-1 heading color is `#333333` and does not occur in the separator chunk,
so the stroke does not use the level-1 heading color. -/
theorem h1_separator_color_counterexample :
    handle_end_tag (.heading .h1) modernTheme
        { list_depth := 0, in_heading := true, heading_level := .h1 } =
      some ([chars "]", h1SeparatorChunk modernTheme, chars "]\n",
             chars "#v(0.2em)\n"],
            { list_depth := 0, in_heading := false, heading_level := .h1 }) ∧
    h1SeparatorChunk modernTheme =
      chars "\n  #line(length: 100%, stroke: 1pt + rgb(\"#FF6B35\"))\n" ∧
    modernTheme.color.get_h1_color = chars "rgb(\"#333333\")" ∧
    containsSub modernTheme.color.get_h1_color (h1SeparatorChunk modernTheme) =
      false := by
  exact ⟨rfl, rfl, rfl, by decide⟩

/-- C7 (amended): at a heading-end event with `in_heading` set and heading
level 1, the transpiler closes the styled text run, emits a separator line
whose stroke uses the theme separator thickness and the theme accent color,
closes the heading block, emits an extra small vertical space, and clears
`in_heading`. -/
theorem h1_heading_end_emission (theme : Theme) (ctx : RenderContext)
    (lvl : HeadingLevel) (hin : ctx.in_heading = true)
    (hl : ctx.heading_level = .h1) :
    handle_end_tag (.heading lvl) theme ctx =
      some ([chars "]", h1SeparatorChunk theme, chars "]\n", chars "#v(0.2em)\n"],
            { ctx with in_heading := false }) := by
  simp [handle_end_tag, hin, hl]

/-- Witness for C7's amended statement at a concrete context. -/
theorem h1_heading_end_emission_witness :
    handle_end_tag (.heading .h2) modernTheme
        { list_depth := 0, in_heading := true, heading_level := .h1 } =
      some ([chars "]", h1SeparatorChunk modernTheme, chars "]\n",
             chars "#v(0.2em)\n"],
            { list_depth := 0, in_heading := false, heading_level := .h1 }) :=
  h1_heading_end_emission modernTheme _ .h2 rfl rfl

/-- C8: the Style Resolver's lookups return the stored value when the
optional field is present and otherwise fall back to the documented default:
H1 color to the body text color, H2 color to the theme primary color, and
separator thickness to the fixed constant 2. -/
theorem style_resolver_fallbacks (t : ColorTheme) :
    (t.h1_color = none → t.get_h1_color = t.to_typst_rgb (chars "text")) ∧
    (∀ c, t.h1_color = some c →
      t.get_h1_color = chars "rgb(\"" ++ c ++ chars "\")") ∧
    (t.h2_color = none → t.get_h2_color = t.to_typst_rgb (chars "primary")) ∧
    (∀ c, t.h2_color = some c →
      t.get_h2_color = chars "rgb(\"" ++ c ++ chars "\")") ∧
    (t.separator_thickness = none → t.get_separator_thickness = chars "2") ∧
    (∀ x, t.separator_thickness = some x → t.get_separator_thickness = x) := by
  refine ⟨?_, ?_, ?_, ?_, ?_, ?_⟩
  · intro h; simp [ColorTheme.get_h1_color, h]
  · intro c h; simp [ColorTheme.get_h1_color, h]
  · intro h; simp [ColorTheme.get_h2_color, h]
  · intro c h; simp [ColorTheme.get_h2_color, h]
  · intro h; simp [ColorTheme.get_separator_thickness, h]
  · intro x h; simp [ColorTheme.get_separator_thickness, h]

/-- Witness for C8 at the classic theme (absent fields) and the modern theme
(present fields). -/
theorem style_resolver_fallbacks_witness :
    ColorTheme.classic.get_h1_color =
      ColorTheme.classic.to_typst_rgb (chars "text") ∧
    ColorTheme.modern.get_h2_color =
      chars "rgb(\"" ++ chars "#607D8B" ++ chars "\")" ∧
    ColorTheme.classic.get_separator_thickness = chars "2" ∧
    ColorTheme.modern.get_separator_thickness = chars "1" :=
  ⟨(style_resolver_fallbacks _).1 rfl,
   (style_resolver_fallbacks _).2.2.2.1 _ rfl,
   (style_resolver_fallbacks _).2.2.2.2.1 rfl,
   (style_resolver_fallbacks _).2.2.2.2.2 _ rfl⟩

/-- C9 counterexample: in `"**a\nb** (c)"` no single line matches any of the
five promotion patterns, yet the Structural Promoter changes the text: the
company regex's classes match the newline, so the match spans two lines. -/
theorem promoter_multiline_counterexample :
    ((linesOf (chars "**a\nb** (c)")).all fun l => !anyPromotionMatch l) = true ∧
    enhance_company_names (chars "**a\nb** (c)") = chars "## a\nb (c)" ∧
    chars "## a\nb (c)" ≠ chars "**a\nb** (c)" := by
  exact ⟨by decide, by rfl, by decide⟩

/-- C9 (amended): on every input in which the five promotion regexes have no
match anywhere (matches may span lines, since their character classes match
the newline), the Structural Promoter is the identity, and hence applying it
twice equals applying it once. -/
theorem promoter_no_match_identity (s : Str) (h : matchFreeAll s = true) :
    enhance_company_names s = s ∧
    enhance_company_names (enhance_company_names s) = enhance_company_names s := by
  have h5 : matchFree companyPat s true = true ∧
      matchFree jobUnderscorePat s true = true ∧
      matchFree jobAsteriskPat s true = true ∧
      matchFree degreeUnderscorePat s true = true ∧
      matchFree degreeAsteriskPat s true = true := by
    simpa [matchFreeAll, Bool.and_eq_true, and_assoc] using h
  obtain ⟨ha, hb, hc, hd, he⟩ := h5
  have key : enhance_company_names s = s := by
    unfold enhance_company_names
    rw [replaceAll_id _ _ _ ha, replaceAll_id _ _ _ hb, replaceAll_id _ _ _ hc,
      replaceAll_id _ _ _ hd, replaceAll_id _ _ _ he]
  refine ⟨key, ?_⟩
  rw [key]
  exact key

/-- Witness for C9's amended statement on plain prose. -/
theorem promoter_no_match_identity_witness :
    enhance_company_names (chars "Led a team.\n- shipped the product") =
      chars "Led a team.\n- shipped the product" :=
  (promoter_no_match_identity _ (by decide)).1

end CvCheck
